import Mathlib

/-!
# Verification of the DSA wiki crawler (`src/main.ts`)

A shallow embedding of the crawler's link-normalization, link-extraction,
link-rewriting, breadcrumb-rendering and crawl-scheduling code, together
with theorems settling the specification claims.

Strings are modelled as `List Char` (`Str`).  JavaScript's
`String.prototype.replace` with a *string* pattern replaces only the first
occurrence; this is modelled by `replaceFirst`.
-/

abbrev Str := List Char

/-- Coerce a Lean string literal to the `List Char` model. -/
def str (s : String) : Str := s.data

/-- JavaScript `s.replace(pat, rep)` with a string pattern: replace the
first (leftmost) occurrence of `pat` in `s` by `rep`; if `pat` does not
occur, return `s` unchanged.  (The `$`-substitution patterns JavaScript
interprets inside `rep` are not used by the crawler's replacement
strings and are not modelled.) -/
def replaceFirst (s pat rep : Str) : Str :=
  if pat.isPrefixOf s then rep ++ s.drop pat.length
  else
    match s with
    | [] => []
    | c :: cs => c :: replaceFirst cs pat rep

/-- JavaScript `s.includes(pat)`: does `pat` occur in `s` as a contiguous
substring? -/
def containsSub (s pat : Str) : Bool :=
  pat.isPrefixOf s ||
    match s with
    | [] => false
    | _ :: cs => containsSub cs pat

/-- JavaScript `s.split("/")` (main.ts line 64): split on `'/'`;
`"".split("/")` is `[""]`. -/
def splitSlash : Str → List Str
  | [] => [[]]
  | c :: cs =>
      if c = '/' then [] :: splitSlash cs
      else
        match splitSlash cs with
        | [] => [[c]]
        | seg :: rest => (c :: seg) :: rest

/-! ## Constants (main.ts lines 11-28) -/

/-- `ID_PREFIX` in main.ts line 11. -/
def dsaRuleTag : Str := str "dsa-rule-"

/-- `ENTRY_POINTS` in main.ts lines 14-28. -/
def ENTRY_POINTS : List Str :=
  [str "index.php/regeln.html",
   str "index.php/spezies.html",
   str "index.php/kulturen.html",
   str "index.php/professionen.html",
   str "index.php/sonderfertigkeiten.html",
   str "index.php/vor-und-nachteile.html",
   str "index.php/magie.html",
   str "index.php/goetterwirken.html",
   str "index.php/ruestkammer.html",
   str "index.php/bestiarium.html",
   str "index.php/herbarium.html",
   str "index.php/GifteundKrankheiten.html",
   str "index.php/WdV18.html"]

/-! ## Identifier Normalizer (main.ts lines 40-68) -/

/-- main.ts lines 40-44: three chained first-occurrence string replaces. -/
def normalizeLink (link : Str) : Str :=
  replaceFirst
    (replaceFirst
      (replaceFirst link (str "https://ulisses-regelwiki.de/") [])
      (str "http://ulisses-regelwiki.de/") [])
    (str "ulisses-regelwiki.de/") []

/-- main.ts lines 63-66: `normalizeLink(x).split("/").pop().replace(".html","")`.
`split` never yields an empty array in JavaScript, so `pop()` is total here;
`.replace(".html","")` removes only the first occurrence. -/
def convertLinkToId (linkTarget : Str) : Str :=
  replaceFirst ((splitSlash (normalizeLink linkTarget)).getLastD []) (str ".html") []

/-- main.ts line 68. -/
def linkToId (link : Str) : Str := dsaRuleTag ++ convertLinkToId link

/-! ## Link Extractor (main.ts lines 46-61)

The regex `/\[([^\[]+)\](\([^\[\])]*\))/gm` is embedded as a left-to-right
scanner with the regex engine's greedy/backtracking semantics: at a `[`,
the text group takes the longest `[`-free run that is followed by `](`,
a run of characters free of `[`/`]`/`)`, and a closing `)`.  Per match,
`singleMatch = /\[([^\[]+)\]\((.*)\)/` re-extracts the groups; on the
match strings the global regex produces (whose target group contains no
`]`), the greedy re-extraction yields the same two groups, so the scanner
returns them directly. -/

/-- One attempted text-group length `p` at a position just after a `[`:
returns `(text, target, remainder)` on success. -/
def tryTextLen (rest : Str) (p : Nat) : Option (Str × Str × Str) :=
  if 1 ≤ p ∧ p ≤ rest.length ∧ (rest.take p).all (fun c => c ≠ '[') then
    match rest.drop p with
    | ']' :: '(' :: r2 =>
        let g := r2.takeWhile (fun c => ¬ (c = '[' ∨ c = ']' ∨ c = ')'))
        match r2.drop g.length with
        | ')' :: tail => some (rest.take p, g, tail)
        | _ => none
    | _ => none
  else none

/-- Greedy backtracking: try text-group lengths from `p` downward. -/
def findGreedy (rest : Str) : Nat → Option (Str × Str × Str)
  | 0 => none
  | p + 1 =>
      match tryTextLen rest (p + 1) with
      | some x => some x
      | none => findGreedy rest p

/-- Global scan (`/g` flag): non-overlapping leftmost matches, resuming
after each match.  Fuelled by the input length (each step consumes at
least one character). -/
def scanAux : Nat → Str → List (Str × Str)
  | 0, _ => []
  | _ + 1, [] => []
  | fuel + 1, c :: rest =>
      if c = '[' then
        match findGreedy rest (rest.takeWhile (fun c => c ≠ '[')).length with
        | some (t, g, tail) => (t, g) :: scanAux fuel tail
        | none => scanAux fuel rest
      else scanAux fuel rest

/-- A link record produced by `parseLinks` (main.ts lines 46-61):
`text` is the display text, `wholeLink` the raw target (the group without
the surrounding parentheses, despite its name), `link` the normalized
target. -/
structure LinkRecord where
  text : Str
  wholeLink : Str
  link : Str
deriving DecidableEq, Repr

/-- main.ts lines 46-61. -/
def parseLinks (text : Str) : List LinkRecord :=
  (scanAux text.length text).map
    (fun m => { text := m.1, wholeLink := m.2, link := normalizeLink m.2 })

/-! ## Page Processor: link rewriting (main.ts lines 118-126)

For each extracted record the loop runs one JavaScript `replace`, i.e.
rewrites the *first* occurrence of the exact span
`[text](wholeLink)` into `[text](dsa-rule-<convertLinkToId link>)`. -/

/-- The literal search string `` `[${link.text}](${link.wholeLink})` ``. -/
def linkSpan (l : LinkRecord) : Str :=
  '[' :: l.text ++ ']' :: '(' :: l.wholeLink ++ [')']

/-- The replacement string
`` `[${link.text}](${ID_PREFIX}${convertLinkToId(link.link)})` ``. -/
def linkSpanRewritten (l : LinkRecord) : Str :=
  '[' :: l.text ++ ']' :: '(' :: dsaRuleTag ++ convertLinkToId l.link ++ [')']

/-- The rewrite loop of main.ts lines 118-126. -/
def rewriteLinks (links : List LinkRecord) (markdown : Str) : Str :=
  links.foldl (fun nm l => replaceFirst nm (linkSpan l) (linkSpanRewritten l)) markdown

/-- main.ts lines 101 and 118-126: extract the links of the (cleaned)
markdown body, then run the rewrite loop on it. -/
def processBody (markdown : Str) : Str :=
  rewriteLinks (parseLinks markdown) markdown

/-! ## Breadcrumb rendering (main.ts lines 80-86 and 136-141)

The fetch step records each breadcrumb anchor as
`[element.textContent, element.getAttribute("href") ?? null]`, so the
href is `Option Str`.  The write step maps `([name, link]) =>` a markdown
link built from `linkToId(link)`; when `link` is `null`,
`normalizeLink(null)` calls `.replace` on a non-string and throws a
`TypeError`, modelled as `Except.error ()`. -/

/-- One `([name, link]) => ...` step of main.ts lines 137-140. -/
def breadcrumbItem (name : Str) (href : Option Str) : Except Unit Str :=
  match href with
  | none => .error ()
  | some l => .ok ('[' :: name ++ ']' :: '(' :: linkToId l ++ [')'])

/-- The `content.breadcrumb.map(...)` of main.ts lines 136-141, with the
exception of the first null href propagated. -/
def breadcrumbRender : List (Str × Option Str) → Except Unit (List Str)
  | [] => .ok []
  | (name, href) :: rest =>
      match breadcrumbItem name href with
      | .error e => .error e
      | .ok x =>
          match breadcrumbRender rest with
          | .error e => .error e
          | .ok xs => .ok (x :: xs)

/-! ## Crawl Scheduler (main.ts lines 178-207)

The page contents are external (fetched through the browser), so the
links discovered on a page are abstracted as `fetch : Str → List
LinkRecord` (the result of `parseLinks` on that page's markdown), and the
possibility of `fs.writeFileSync` throwing as `writeOk : Str → Bool`.
`parseSite page l` (1) navigates, (2) writes the document — throwing if
the write fails — and (3) adds `l` to `alreadyParsedIds` (line 148),
returning the discovered links.  These three externally visible actions
are recorded as events. -/

/-- Observable actions of a crawl run. -/
inductive Ev where
  | invoke (t : Str)
  | write (t : Str)
  | mark (t : Str)
deriving DecidableEq, Repr

/-- Scheduler state: the growing `links` array, the loop index `i`, the
`alreadyParsedIds` set (as a list), and the event trace. -/
structure CrawlState where
  links : List LinkRecord
  i : Nat
  visited : List Str
  events : List Ev
deriving DecidableEq, Repr

/-- Result of a run: the loop's `break`, or an exception thrown while
processing target `t` (which propagates to `main().catch`, terminating
the whole crawl with exit code 1, main.ts lines 209-212). -/
inductive RunResult where
  | finished (s : CrawlState)
  | aborted (t : Str) (s : CrawlState)
deriving DecidableEq, Repr

/-- The state carried by a run result. -/
def RunResult.state : RunResult → CrawlState
  | .finished s => s
  | .aborted _ s => s

/-- The drain loop of main.ts lines 196-204, fuelled.  Per iteration:
`links[i]` missing → break; normalized target already in
`alreadyParsedIds` → `continue`; otherwise `parseSite` (navigate, write —
throwing on failure before the visited mark —, mark visited) and push the
discovered links. -/
def drainRun (fetch : Str → List LinkRecord) (writeOk : Str → Bool) :
    Nat → CrawlState → Option RunResult
  | 0, _ => none
  | fuel + 1, s =>
      match s.links.get? s.i with
      | none => some (.finished s)
      | some l =>
          if l.link ∈ s.visited then
            drainRun fetch writeOk fuel { s with i := s.i + 1 }
          else if writeOk l.link then
            drainRun fetch writeOk fuel
              { links := s.links ++ fetch l.link
                i := s.i + 1
                visited := l.link :: s.visited
                events := s.events ++ [.invoke l.link, .write l.link, .mark l.link] }
          else
            some (.aborted l.link { s with events := s.events ++ [.invoke l.link] })

/-- The seeding loop of main.ts lines 185-190: every entry point is
processed unconditionally (no visited check). -/
def seedRun (fetch : Str → List LinkRecord) (writeOk : Str → Bool) :
    List Str → CrawlState → Except (Str × CrawlState) CrawlState
  | [], s => .ok s
  | e :: rest, s =>
      if writeOk e then
        seedRun fetch writeOk rest
          { links := s.links ++ fetch e
            i := s.i
            visited := e :: s.visited
            events := s.events ++ [.invoke e, .write e, .mark e] }
      else .error (e, { s with events := s.events ++ [.invoke e] })

/-- Initial scheduler state (main.ts lines 182, 194). -/
def initState : CrawlState := { links := [], i := 0, visited := [], events := [] }

/-- main.ts lines 178-207: seed from the entry points, then drain. -/
def mainRun (fetch : Str → List LinkRecord) (writeOk : Str → Bool)
    (entryPoints : List Str) (fuel : Nat) : Option RunResult :=
  match seedRun fetch writeOk entryPoints initState with
  | .error (t, s) => some (.aborted t s)
  | .ok s => drainRun fetch writeOk fuel s

/-- The targets on which `parseSite` was invoked, in order. -/
def invokesOf : List Ev → List Str
  | [] => []
  | .invoke t :: rest => t :: invokesOf rest
  | .write _ :: rest => invokesOf rest
  | .mark _ :: rest => invokesOf rest

/-- The targets marked visited, in order. -/
def marksOf : List Ev → List Str
  | [] => []
  | .invoke _ :: rest => marksOf rest
  | .write _ :: rest => marksOf rest
  | .mark t :: rest => t :: marksOf rest

/-! ## Concrete inputs used by the claim theorems -/

/-- A wiki-site absolute URL used in the link-rewriting inputs. -/
def urlX : Str := str "https://ulisses-regelwiki.de/x.html"

/-- A body whose first extracted link span textually contains a second,
smaller link span as a prefix (possible because the regex allows `]`, `(`
and `)` inside the display-text group). -/
def mdOverlap : Str :=
  str "[a](https://ulisses-regelwiki.de/x.html)](c) [a](https://ulisses-regelwiki.de/x.html)"

/-- A body repeating one identical link span twice. -/
def mdDup : Str :=
  str "[a](https://ulisses-regelwiki.de/x.html) [a](https://ulisses-regelwiki.de/x.html)"

/-! ## Crawl-model auxiliary definitions -/

/-- The shape of the event trace a drain loop appends, relative to the
visited set at its start: each processed target is unvisited when
invoked, its write and visited-mark follow immediately, and a failing
write ends the trace right after the invoke. -/
inductive DrainTrace : List Str → List Ev → Prop
  | nil (v : List Str) : DrainTrace v []
  | abort (v : List Str) (t : Str) : t ∉ v → DrainTrace v [.invoke t]
  | step (v : List Str) (t : Str) (rest : List Ev) : t ∉ v →
      DrainTrace (t :: v) rest →
      DrainTrace v (.invoke t :: .write t :: .mark t :: rest)

/-- Total number of links still discoverable from unvisited pages of the
finite page universe `U`. -/
def drainCost (fetch : Str → List LinkRecord) (U : Finset Str) (visited : List Str) : Nat :=
  ∑ t in U.filter (fun t => t ∉ visited), (fetch t).length

/-- Termination measure for the drain loop. -/
def drainMeasure (fetch : Str → List LinkRecord) (U : Finset Str) (s : CrawlState) : Nat :=
  (s.links.length - s.i) + drainCost fetch U s.visited

/-- A concrete two-page site: page `a.html` links to `b.html` and page
`b.html` links back to `a.html` (page markdown run through the real
`parseLinks`). -/
def twoPageSite (t : Str) : List LinkRecord :=
  if t = str "a.html" then parseLinks (str "[B](b.html)")
  else if t = str "b.html" then parseLinks (str "[A](a.html)")
  else []

/-- A frontier holding one unvisited link record for `a.html`. -/
def oneLinkState : CrawlState :=
  { links := [{ text := str "A", wholeLink := str "a.html", link := str "a.html" }]
    i := 0, visited := [], events := [] }

/-- `oneLinkState` after its single drain iteration. -/
def oneLinkFinal : CrawlState :=
  { links := [{ text := str "A", wholeLink := str "a.html", link := str "a.html" }]
    i := 1, visited := [str "a.html"]
    events := [.invoke (str "a.html"), .write (str "a.html"), .mark (str "a.html")] }

/-- A frontier holding unvisited link records for `a.html` and then
`c.html`. -/
def twoLinkState : CrawlState :=
  { links := [{ text := str "A", wholeLink := str "a.html", link := str "a.html" },
              { text := str "C", wholeLink := str "c.html", link := str "c.html" }]
    i := 0, visited := [], events := [] }

/-- `twoLinkState` after the write for `a.html` throws: the loop aborts
with only the invoke recorded. -/
def twoLinkAborted : CrawlState :=
  { links := [{ text := str "A", wholeLink := str "a.html", link := str "a.html" },
              { text := str "C", wholeLink := str "c.html", link := str "c.html" }]
    i := 0, visited := [], events := [.invoke (str "a.html")] }

/-- A write collaborator that fails exactly on `a.html`. -/
def failOnA (t : Str) : Bool := t != str "a.html"

/-! ## Helper lemmas -/

theorem replaceFirst_of_not_contains (s pat rep : Str) (h : containsSub s pat = false) :
    replaceFirst s pat rep = s := by
  induction s with
  | nil =>
      rw [containsSub] at h
      simp only [Bool.or_eq_false_iff] at h
      rw [replaceFirst, if_neg (by simp [h.1])]
  | cons c cs ih =>
      rw [containsSub] at h
      simp only [Bool.or_eq_false_iff] at h
      rw [replaceFirst, if_neg (by simp [h.1])]
      rw [ih h.2]

theorem breadcrumbRender_error_of_none :
    ∀ bc : List (Str × Option Str), (∃ p ∈ bc, p.2 = none) →
      breadcrumbRender bc = .error () := by
  intro bc
  induction bc with
  | nil => rintro ⟨p, hp, _⟩; cases hp
  | cons hd tl ih =>
      rintro ⟨p, hp, hnone⟩
      obtain ⟨name, href⟩ := hd
      rcases List.mem_cons.mp hp with h | h
      · subst h
        simp only at hnone
        subst hnone
        rfl
      · cases href with
        | none => rfl
        | some l =>
            have htl := ih ⟨p, h, hnone⟩
            simp only [breadcrumbRender, breadcrumbItem, htl]

theorem breadcrumbRender_ok_of_all_some :
    ∀ bc : List (Str × Option Str), (∀ p ∈ bc, p.2 ≠ none) →
      ∃ out, breadcrumbRender bc = .ok out := by
  intro bc
  induction bc with
  | nil => exact fun _ => ⟨[], rfl⟩
  | cons hd tl ih =>
      intro h
      obtain ⟨name, href⟩ := hd
      have hhd := h (name, href) (List.mem_cons_self _ _)
      cases href with
      | none => simp at hhd
      | some l =>
          obtain ⟨out, hout⟩ := ih (fun p hp => h p (List.mem_cons_of_mem _ hp))
          refine ⟨('[' :: name ++ ']' :: '(' :: linkToId l ++ [')']) :: out, ?_⟩
          simp only [breadcrumbRender, breadcrumbItem, hout]

theorem DrainTrace.invokes_nodup_and_fresh {v : List Str} {ext : List Ev}
    (h : DrainTrace v ext) :
    (invokesOf ext).Nodup ∧ ∀ t ∈ invokesOf ext, t ∉ v := by
  induction h with
  | nil => simp [invokesOf]
  | abort v t hnv =>
      refine ⟨by simp [invokesOf], ?_⟩
      intro u hu
      simp only [invokesOf, List.mem_singleton] at hu
      subst hu; exact hnv
  | step v t rest hnv _ ih =>
      simp only [invokesOf]
      refine ⟨List.nodup_cons.mpr ⟨fun hc => (ih.2 t hc) (List.mem_cons_self _ _), ih.1⟩, ?_⟩
      intro u hu
      rcases List.mem_cons.mp hu with h | h
      · subst h; exact hnv
      · exact fun hv => (ih.2 u h) (List.mem_cons_of_mem _ hv)

theorem drainRun_trace (fetch : Str → List LinkRecord) (writeOk : Str → Bool) :
    ∀ (fuel : Nat) (s : CrawlState) (res : RunResult),
      drainRun fetch writeOk fuel s = some res →
      ∃ ext, res.state.events = s.events ++ ext ∧ DrainTrace s.visited ext := by
  intro fuel
  induction fuel with
  | zero => intro s res h; simp [drainRun] at h
  | succ n ih =>
      intro s res h
      simp only [drainRun] at h
      split at h
      next hget =>
        cases h
        exact ⟨[], by simp [RunResult.state], DrainTrace.nil _⟩
      next l hget =>
        split at h
        next hmem =>
          obtain ⟨ext, he, ht⟩ := ih _ _ h
          exact ⟨ext, he, ht⟩
        next hmem =>
          split at h
          next hwok =>
            obtain ⟨ext, he, ht⟩ := ih _ _ h
            refine ⟨Ev.invoke l.link :: Ev.write l.link :: Ev.mark l.link :: ext, ?_,
              DrainTrace.step _ _ _ hmem ht⟩
            simpa using he
          next hwok =>
            cases h
            exact ⟨[Ev.invoke l.link], by simp [RunResult.state], DrainTrace.abort _ _ hmem⟩

theorem DrainTrace.invoke_not_marked_before {v : List Str} {ext : List Ev}
    (h : DrainTrace v ext) :
    ∀ k t, ext.get? k = some (.invoke t) → t ∉ v ∧ Ev.mark t ∉ ext.take k := by
  induction h with
  | nil => intro k t hk; simp at hk
  | abort v t' hnv =>
      intro k t hk
      cases k with
      | zero =>
          rw [List.get?_cons_zero] at hk
          injection hk with hk
          injection hk with hk
          subst hk
          exact ⟨hnv, by simp⟩
      | succ n => simp [List.get?] at hk
  | step v t' rest hnv hrest ih =>
      intro k t hk
      rcases k with _ | _ | _ | n
      · rw [List.get?_cons_zero] at hk
        injection hk with hk
        injection hk with hk
        subst hk
        exact ⟨hnv, by simp⟩
      · simp [List.get?] at hk
      · simp [List.get?] at hk
      · have hk' : rest.get? n = some (Ev.invoke t) := by simpa [List.get?] using hk
        obtain ⟨h1, h2⟩ := ih n t hk'
        refine ⟨fun hv => h1 (List.mem_cons_of_mem _ hv), ?_⟩
        intro hmem
        simp only [List.take_succ_cons, List.mem_cons] at hmem
        rcases hmem with h | h | h | h
        · exact Ev.noConfusion h
        · exact Ev.noConfusion h
        · injection h with h
          subst h
          exact h1 (List.mem_cons_self _ _)
        · exact h2 h

theorem DrainTrace.invoke_then_write_mark {v : List Str} {ext : List Ev}
    (h : DrainTrace v ext) :
    ∀ k t, ext.get? k = some (.invoke t) →
      (ext.get? (k + 1) = some (.write t) ∧ ext.get? (k + 2) = some (.mark t))
        ∨ ext.length = k + 1 := by
  induction h with
  | nil => intro k t hk; simp at hk
  | abort v t' hnv =>
      intro k t hk
      cases k with
      | zero => right; rfl
      | succ n => simp [List.get?] at hk
  | step v t' rest hnv hrest ih =>
      intro k t hk
      rcases k with _ | _ | _ | n
      · rw [List.get?_cons_zero] at hk
        injection hk with hk
        injection hk with hk
        subst hk
        exact Or.inl ⟨rfl, rfl⟩
      · simp [List.get?] at hk
      · simp [List.get?] at hk
      · have hk' : rest.get? n = some (Ev.invoke t) := by simpa [List.get?] using hk
        rcases ih n t hk' with ⟨h1, h2⟩ | hlen
        · exact Or.inl ⟨by simpa [List.get?] using h1, by simpa [List.get?] using h2⟩
        · right
          simp only [List.length_cons, hlen]

theorem drainRun_aborted (fetch : Str → List LinkRecord) (writeOk : Str → Bool) :
    ∀ (fuel : Nat) (s : CrawlState) (t : Str) (s' : CrawlState),
      drainRun fetch writeOk fuel s = some (.aborted t s') →
      writeOk t = false ∧ t ∉ s'.visited ∧
        (∃ l, s'.links.get? s'.i = some l ∧ l.link = t) ∧
        ∃ ext, s'.events = s.events ++ ext ++ [Ev.invoke t] := by
  intro fuel
  induction fuel with
  | zero => intro s t s' h; simp [drainRun] at h
  | succ n ih =>
      intro s t s' h
      simp only [drainRun] at h
      split at h
      next hget => cases h
      next l hget =>
        split at h
        next hmem =>
          obtain ⟨h1, h2, h3, ext, he⟩ := ih _ _ _ h
          exact ⟨h1, h2, h3, ext, he⟩
        next hmem =>
          split at h
          next hwok =>
            obtain ⟨h1, h2, h3, ext, he⟩ := ih _ _ _ h
            refine ⟨h1, h2, h3,
              Ev.invoke l.link :: Ev.write l.link :: Ev.mark l.link :: ext, ?_⟩
            simpa [List.append_assoc] using he
          next hwok =>
            cases h
            exact ⟨by simpa using hwok, hmem, ⟨l, hget, rfl⟩, [], by simp⟩

theorem drainCost_cons (fetch : Str → List LinkRecord) (U : Finset Str) (t : Str)
    (v : List Str) (htU : t ∈ U) (htv : t ∉ v) :
    drainCost fetch U (t :: v) + (fetch t).length = drainCost fetch U v := by
  have hset : U.filter (fun x => x ∉ t :: v) = (U.filter (fun x => x ∉ v)).erase t := by
    ext x
    simp only [Finset.mem_filter, Finset.mem_erase, List.mem_cons, not_or]
    tauto
  rw [drainCost, drainCost, hset]
  exact Finset.sum_erase_add _ _ (Finset.mem_filter.mpr ⟨htU, htv⟩)

theorem drainRun_unfold (fetch : Str → List LinkRecord) (writeOk : Str → Bool)
    (fuel : Nat) (s : CrawlState) :
    drainRun fetch writeOk (fuel + 1) s =
      match s.links.get? s.i with
      | none => some (.finished s)
      | some l =>
          if l.link ∈ s.visited then
            drainRun fetch writeOk fuel { s with i := s.i + 1 }
          else if writeOk l.link then
            drainRun fetch writeOk fuel
              { links := s.links ++ fetch l.link
                i := s.i + 1
                visited := l.link :: s.visited
                events := s.events ++ [.invoke l.link, .write l.link, .mark l.link] }
          else
            some (.aborted l.link { s with events := s.events ++ [.invoke l.link] }) := rfl

theorem drainRun_total (fetch : Str → List LinkRecord) (writeOk : Str → Bool) (U : Finset Str)
    (hU : ∀ t ∈ U, ∀ r ∈ fetch t, r.link ∈ U) :
    ∀ (n : Nat) (s : CrawlState), (∀ l ∈ s.links, l.link ∈ U) →
      drainMeasure fetch U s ≤ n →
      ∃ res, drainRun fetch writeOk (n + 1) s = some res := by
  intro n
  induction n with
  | zero =>
      intro s hInv hm
      have hlen : s.links.length ≤ s.i := by
        unfold drainMeasure at hm; omega
      have hget : s.links.get? s.i = none := List.get?_eq_none.mpr hlen
      refine ⟨.finished s, ?_⟩
      simp only [drainRun_unfold, hget]
  | succ m ih =>
      intro s hInv hm
      cases hget : s.links.get? s.i with
      | none =>
          refine ⟨.finished s, ?_⟩
          simp only [drainRun_unfold, hget]
      | some l =>
          have hil : s.i < s.links.length := by
            by_contra hc
            rw [List.get?_eq_none.mpr (le_of_not_lt hc)] at hget
            cases hget
          have hlU : l.link ∈ U := hInv l (List.get?_mem hget)
          by_cases hmem : l.link ∈ s.visited
          · have hm' : drainMeasure fetch U { s with i := s.i + 1 } ≤ m := by
              unfold drainMeasure at hm ⊢
              simp only
              omega
            obtain ⟨res, hres⟩ := ih { s with i := s.i + 1 } hInv hm'
            refine ⟨res, ?_⟩
            simp only [drainRun_unfold, hget]
            rw [if_pos hmem]
            exact hres
          · cases hwok : writeOk l.link with
            | false =>
                refine ⟨.aborted l.link { s with events := s.events ++ [Ev.invoke l.link] }, ?_⟩
                simp only [drainRun_unfold, hget]
                rw [if_neg hmem, if_neg (by simp [hwok])]
            | true =>
                have hInv' : ∀ l' ∈ s.links ++ fetch l.link, l'.link ∈ U := by
                  intro l' hl'
                  rcases List.mem_append.mp hl' with h | h
                  · exact hInv l' h
                  · exact hU l.link hlU l' h
                have hcost := drainCost_cons fetch U l.link s.visited hlU hmem
                have hm' : drainMeasure fetch U
                    { links := s.links ++ fetch l.link
                      i := s.i + 1
                      visited := l.link :: s.visited
                      events := s.events ++ [Ev.invoke l.link, Ev.write l.link, Ev.mark l.link] }
                    ≤ m := by
                  unfold drainMeasure at hm ⊢
                  simp only [List.length_append]
                  omega
                obtain ⟨res, hres⟩ := ih _ hInv' hm'
                refine ⟨res, ?_⟩
                simp only [drainRun_unfold, hget]
                rw [if_neg hmem, if_pos hwok]
                exact hres

/-! ## Claim theorems -/

/-- Claim C1, counterexample.  In the body `mdOverlap` the second link's
raw wiki-site URL target is extracted and successfully normalized to the
local ID `x`, yet after the rewrite loop the output body still contains
that raw absolute URL: the `replace` call for the second record rewrites
the copy of its span embedded (as an overlapping prefix) in the first
link's span, so the genuine second occurrence is left unrewritten. -/
theorem c1_rewrite_cex :
    (∃ r ∈ parseLinks mdOverlap, r.wholeLink = urlX ∧ convertLinkToId r.link = str "x")
    ∧ containsSub (processBody mdOverlap) urlX = true
    ∧ processBody mdOverlap
        = str "[a](dsa-rule-x)](dsa-rule-c) [a](https://ulisses-regelwiki.de/x.html)" := by
  decide

/-- Claim C1, amended: for each extracted link record, in extraction
order, the processor replaces the first occurrence of the record's exact
span `[text](rawTarget)` in the current body by `[text](dsa-rule-<id>)`,
preserving the display text; because every occurrence of a span is
extracted as its own record, repeated identical links are all rewritten
(shown on `mdDup`), but an occurrence overlapping a different link's
span can be rewritten in its place, leaving a genuine occurrence — and
its raw wiki-site URL — in the output (`c1_rewrite_cex`). -/
theorem c1_rewrite_amended :
    parseLinks mdDup
      = [{ text := str "a", wholeLink := urlX, link := str "x.html" },
         { text := str "a", wholeLink := urlX, link := str "x.html" }]
    ∧ processBody mdDup = str "[a](dsa-rule-x) [a](dsa-rule-x)"
    ∧ containsSub (processBody mdDup) (str "ulisses-regelwiki.de/") = false := by
  decide

/-- Claim C2, counterexample: `convertLinkToId` is not injective over
distinct pages — the distinct paths `a/page.html` and `b/page.html`
yield the same Document ID `page`. -/
theorem c2_to_id_injective_cex :
    convertLinkToId (str "a/page.html") = convertLinkToId (str "b/page.html")
    ∧ str "a/page.html" ≠ str "b/page.html" := by decide

/-- Claim C2, amended: `convertLinkToId` is deterministic (equal URL
strings always yield equal IDs) and the thirteen fixed entry-point paths
map to pairwise distinct Document IDs; it is not injective over all
distinct URLs (`c2_to_id_injective_cex`). -/
theorem c2_to_id_amended :
    (∀ x y : Str, x = y → convertLinkToId x = convertLinkToId y)
    ∧ (ENTRY_POINTS.map convertLinkToId).Nodup :=
  ⟨fun _ _ h => h ▸ rfl, by decide⟩

/-- Witness for `c2_to_id_amended`. -/
theorem c2_to_id_amended_witness :
    convertLinkToId (str "index.php/regeln.html")
      = convertLinkToId (str "index.php/regeln.html") :=
  c2_to_id_amended.1 _ _ rfl

/-- Claim C3 (confirmed): in any drain run, the targets on which the
Page Processor is invoked extend the event trace by a duplicate-free
list disjoint from the visited set at the start of the run — once a
normalized target is marked visited (whether before the run or when it
is processed during the run), `parseSite` is never invoked on it again,
however often it is re-discovered. -/
theorem c3_visited_monotonicity (fetch : Str → List LinkRecord) (writeOk : Str → Bool)
    (fuel : Nat) (s : CrawlState) (res : RunResult)
    (h : drainRun fetch writeOk fuel s = some res) :
    ∃ ext, res.state.events = s.events ++ ext
      ∧ (∀ t ∈ s.visited, t ∉ invokesOf ext)
      ∧ (invokesOf ext).Nodup := by
  obtain ⟨ext, he, ht⟩ := drainRun_trace fetch writeOk fuel s res h
  obtain ⟨hnd, hfresh⟩ := ht.invokes_nodup_and_fresh
  exact ⟨ext, he, fun t hv hi => hfresh t hi hv, hnd⟩

/-- Witness for `c3_visited_monotonicity`: a concrete one-link drain
run. -/
theorem c3_visited_monotonicity_witness :
    ∃ ext, (RunResult.finished oneLinkFinal).state.events = oneLinkState.events ++ ext
      ∧ (∀ t ∈ oneLinkState.visited, t ∉ invokesOf ext)
      ∧ (invokesOf ext).Nodup :=
  c3_visited_monotonicity (fun _ => []) (fun _ => true) 2 oneLinkState
    (.finished oneLinkFinal) (by decide)

/-- Claim C4 (confirmed): (1) whenever the frontier's normalized targets
lie in a finite page universe `U` that is closed under the links
discovered on its pages, the drain loop terminates — some finite fuel
yields a result; (2) in the concrete two-seed scenario where page
`a.html` links to `b.html` and page `b.html` links back to `a.html`,
the crawl terminates after processing exactly the two pages. -/
theorem c4_drain_termination :
    (∀ (fetch : Str → List LinkRecord) (writeOk : Str → Bool) (U : Finset Str)
        (s : CrawlState),
        (∀ l ∈ s.links, l.link ∈ U) →
        (∀ t ∈ U, ∀ r ∈ fetch t, r.link ∈ U) →
        ∃ fuel res, drainRun fetch writeOk fuel s = some res)
    ∧ (mainRun twoPageSite (fun _ => true) [str "a.html", str "b.html"] 5).map
        (fun r => invokesOf r.state.events) = some [str "a.html", str "b.html"] := by
  constructor
  · intro fetch writeOk U s h1 h2
    exact ⟨drainMeasure fetch U s + 1, drainRun_total fetch writeOk U h2 _ s h1 le_rfl⟩
  · decide

/-- Witness for `c4_drain_termination` at the two-page site. -/
theorem c4_drain_termination_witness :
    ∃ fuel res, drainRun twoPageSite (fun _ => true) fuel initState = some res :=
  c4_drain_termination.1 twoPageSite (fun _ => true)
    ({str "a.html", str "b.html"} : Finset Str) initState (by decide) (by decide)

/-- Claim C5, counterexample: `normalizeLink` is not idempotent on all
inputs — each application removes only the first occurrence of each host
prefix, so a target containing the bare host form twice normalizes
further on the second application. -/
theorem c5_idempotent_cex :
    normalizeLink (normalizeLink (str "ulisses-regelwiki.de/ulisses-regelwiki.de/a"))
      ≠ normalizeLink (str "ulisses-regelwiki.de/ulisses-regelwiki.de/a") := by decide

/-- Claim C5, amended: on any input containing no occurrence of any of
the three host forms — in particular on every already site-relative
path — `normalizeLink` is the identity and hence idempotent; it is not
idempotent on arbitrary inputs (`c5_idempotent_cex`). -/
theorem c5_idempotent_amended (x : Str)
    (h1 : containsSub x (str "https://ulisses-regelwiki.de/") = false)
    (h2 : containsSub x (str "http://ulisses-regelwiki.de/") = false)
    (h3 : containsSub x (str "ulisses-regelwiki.de/") = false) :
    normalizeLink x = x ∧ normalizeLink (normalizeLink x) = normalizeLink x := by
  have hx : normalizeLink x = x := by
    unfold normalizeLink
    rw [replaceFirst_of_not_contains _ _ _ h1,
        replaceFirst_of_not_contains _ _ _ h2,
        replaceFirst_of_not_contains _ _ _ h3]
  exact ⟨hx, by rw [hx, hx]⟩

/-- Witness for `c5_idempotent_amended` at an entry-point path. -/
theorem c5_idempotent_amended_witness :
    normalizeLink (str "index.php/regeln.html") = str "index.php/regeln.html"
      ∧ normalizeLink (normalizeLink (str "index.php/regeln.html"))
          = normalizeLink (str "index.php/regeln.html") :=
  c5_idempotent_amended (str "index.php/regeln.html") (by decide) (by decide) (by decide)

/-- Claim C6, counterexample: on `https://example.org/a/b/page.html`,
`normalizeLink` does not yield `a/b/page.html` — only the
`ulisses-regelwiki.de` host forms are stripped and `example.org` is not
one of them. -/
theorem c6_example_cex :
    normalizeLink (str "https://example.org/a/b/page.html") ≠ str "a/b/page.html" := by
  decide

/-- Claim C6, amended: on `https://example.org/a/b/page.html`,
`normalizeLink` returns the input unchanged, while `convertLinkToId`
still returns `page`. -/
theorem c6_example_amended :
    normalizeLink (str "https://example.org/a/b/page.html")
        = str "https://example.org/a/b/page.html"
    ∧ convertLinkToId (str "https://example.org/a/b/page.html") = str "page" := by decide

/-- Claim C7, counterexample: an extracted link to an external non-wiki
host is not left unchanged as a passthrough link — the rewrite loop
performs no detection and rewrites it to a `dsa-rule-` ID. -/
theorem c7_passthrough_cex :
    processBody (str "[Foo](https://example.org/qux.html)")
        = str "[Foo](dsa-rule-qux)"
    ∧ processBody (str "[Foo](https://example.org/qux.html)")
        ≠ str "[Foo](https://example.org/qux.html)" := by decide

/-- Claim C7, amended: the normalizer does return an empty ID for a
target with no path segment (an empty target, or a bare wiki-host URL
with an empty path), but the Page Processor performs no sentinel check:
every extracted link — external hosts and empty targets included — is
rewritten to the `dsa-rule-` prefixed ID. -/
theorem c7_passthrough_amended :
    convertLinkToId (str "") = str ""
    ∧ convertLinkToId (str "https://ulisses-regelwiki.de/") = str ""
    ∧ processBody (str "[A]()") = str "[A](dsa-rule-)"
    ∧ processBody (str "[Foo](https://example.org/qux.html)") = str "[Foo](dsa-rule-qux)" := by
  decide

/-- Claim C8, counterexample: in a concrete drain run on one unvisited
link, the first event is the Page Processor invocation and the visited
mark only comes two events later; at the moment of the invocation the
target is absent from the Visited Set (the set is initially empty and no
mark precedes the invoke) — the scheduler does not insert the target
before invoking the processor. -/
theorem c8_mark_before_cex :
    drainRun (fun _ => []) (fun _ => true) 2 oneLinkState = some (.finished oneLinkFinal)
    ∧ oneLinkFinal.events.get? 0 = some (.invoke (str "a.html"))
    ∧ oneLinkFinal.events.get? 2 = some (.mark (str "a.html"))
    ∧ oneLinkState.visited = []
    ∧ marksOf (oneLinkFinal.events.take 0) = [] := by decide

/-- Claim C8, amended: for every dequeued unvisited link the scheduler
invokes the Page Processor first and inserts the target into the Visited
Set only at the end of that target's processing, directly after its
document write and before the next dequeue: whenever an invoke appears
in a drain-run trace, the target is not in the visited set at that point
(neither initially nor by an earlier mark), and the matching write and
mark follow as the next two events — unless that write failed, in which
case the invoke is the final event of the run. -/
theorem c8_mark_after_amended (fetch : Str → List LinkRecord) (writeOk : Str → Bool)
    (fuel : Nat) (s : CrawlState) (res : RunResult)
    (h : drainRun fetch writeOk fuel s = some res) :
    ∃ ext, res.state.events = s.events ++ ext
      ∧ (∀ k t, ext.get? k = some (.invoke t) → t ∉ s.visited ∧ Ev.mark t ∉ ext.take k)
      ∧ (∀ k t, ext.get? k = some (.invoke t) →
          (ext.get? (k + 1) = some (.write t) ∧ ext.get? (k + 2) = some (.mark t))
            ∨ ext.length = k + 1) := by
  obtain ⟨ext, he, ht⟩ := drainRun_trace fetch writeOk fuel s res h
  exact ⟨ext, he, ht.invoke_not_marked_before, ht.invoke_then_write_mark⟩

/-- Witness for `c8_mark_after_amended`: the concrete one-link run. -/
theorem c8_mark_after_amended_witness :
    ∃ ext, (RunResult.finished oneLinkFinal).state.events = oneLinkState.events ++ ext
      ∧ (∀ k t, ext.get? k = some (.invoke t) →
            t ∉ oneLinkState.visited ∧ Ev.mark t ∉ ext.take k)
      ∧ (∀ k t, ext.get? k = some (.invoke t) →
          (ext.get? (k + 1) = some (.write t) ∧ ext.get? (k + 2) = some (.mark t))
            ∨ ext.length = k + 1) :=
  c8_mark_after_amended (fun _ => []) (fun _ => true) 2 oneLinkState
    (.finished oneLinkFinal) (by decide)

/-- Claim C9, counterexample: with a frontier holding `a.html` and then
`c.html` and a write collaborator that fails on `a.html`, the drain run
returns an abort right after the invoke of `a.html`; the scheduler does
not continue with the next frontier entry — `c.html` is never
processed. -/
theorem c9_write_failure_cex :
    drainRun (fun _ => []) failOnA 5 twoLinkState
        = some (.aborted (str "a.html") twoLinkAborted)
    ∧ str "c.html" ∉ invokesOf twoLinkAborted.events
    ∧ invokesOf twoLinkAborted.events = [str "a.html"] := by decide

/-- Claim C9, amended: a failed document write is fatal for the whole
remaining crawl, not only for that document: the drain loop ends
immediately with the thrown error — the failing target is invoked but
never written or marked, the frontier index still points at the failing
entry, and no later frontier entry is processed (the exception
propagates to the `main().catch` handler, which records a failing exit
code). -/
theorem c9_write_failure_amended (fetch : Str → List LinkRecord) (writeOk : Str → Bool)
    (fuel : Nat) (s : CrawlState) (t : Str) (s' : CrawlState)
    (h : drainRun fetch writeOk fuel s = some (.aborted t s')) :
    writeOk t = false ∧ t ∉ s'.visited
      ∧ (∃ l, s'.links.get? s'.i = some l ∧ l.link = t)
      ∧ ∃ ext, s'.events = s.events ++ ext ++ [Ev.invoke t] :=
  drainRun_aborted fetch writeOk fuel s t s' h

/-- Witness for `c9_write_failure_amended`: the concrete failing run. -/
theorem c9_write_failure_amended_witness :
    failOnA (str "a.html") = false ∧ str "a.html" ∉ twoLinkAborted.visited
      ∧ (∃ l, twoLinkAborted.links.get? twoLinkAborted.i = some l ∧ l.link = str "a.html")
      ∧ ∃ ext, twoLinkAborted.events
          = twoLinkState.events ++ ext ++ [Ev.invoke (str "a.html")] :=
  c9_write_failure_amended (fun _ => []) failOnA 5 twoLinkState (str "a.html")
    twoLinkAborted (by decide)

/-- Claim C10 (confirmed): if a page's breadcrumb trail contains an
anchor without an href, rendering the breadcrumb line passes the
recorded `null` to `linkToId`, where `normalizeLink` is applied to a
non-string value and the processing step throws instead of returning a
document record; when every breadcrumb anchor carries an href, rendering
succeeds. -/
theorem c10_breadcrumb_null_href :
    (∀ bc : List (Str × Option Str), (∃ p ∈ bc, p.2 = none) →
        breadcrumbRender bc = .error ())
    ∧ (∀ bc : List (Str × Option Str), (∀ p ∈ bc, p.2 ≠ none) →
        ∃ out, breadcrumbRender bc = .ok out) :=
  ⟨breadcrumbRender_error_of_none, breadcrumbRender_ok_of_all_some⟩

/-- Witness for `c10_breadcrumb_null_href`. -/
theorem c10_breadcrumb_null_href_witness :
    breadcrumbRender [(str "Regeln", none)] = .error ()
    ∧ ∃ out, breadcrumbRender
        [(str "Regeln", some (str "index.php/regeln.html"))] = .ok out :=
  ⟨c10_breadcrumb_null_href.1 _ (by decide),
   c10_breadcrumb_null_href.2 _ (by decide)⟩

